import Mathlib

/-!
Verification development for the DAG type legalizer interface
(`lib/CodeGen/SelectionDAG/LegalizeTypes.h`).

The repository contains only the header: the inline members
(`getTypeAction`, `isTypeLegal`, the constructor assertion,
`NoteReplacement`, `GetPromotedInteger`, `GetPromotedFloat`,
`GetScalarizedVector`, `ZExtPromotedInteger`) are embedded from the
source text.  Members whose bodies live in the `.cpp` files that are not
part of the repository (`RemapNode`, `ExpungeNode`, the `Set*` mutators,
`run`, and the `SelectionDAG` helper `getZeroExtendInReg`) are modelled
from the specification; each such definition says so in its doc comment.
-/

namespace LegalizeTypes

/-- The coarse action reported by the target query
(`TargetLowering::ValueTypeActionImpl::getTypeAction`), as the spec's
external Target Query interface describes it:
`classify(type) -> {Legal, Promote, Expand}`. -/
inductive TargetAction where
  | Legal
  | Promote
  | Expand
deriving DecidableEq, Repr

/-- The seven-valued `DAGTypeLegalizer::LegalizeAction` enum from the
header. -/
inductive LegalizeAction where
  | Legal
  | PromoteInteger
  | ExpandInteger
  | PromoteFloat
  | ExpandFloat
  | Scalarize
  | Split
deriving DecidableEq, Repr

/-- A machine value type (`MVT`): the shape information `getTypeAction`
queries — whether it is a vector, whether a non-vector is an integer
(otherwise floating point), its size in bits, and its vector element
count. -/
structure MVT where
  isVector : Bool
  isInteger : Bool
  sizeInBits : Nat
  vectorNumElements : Nat
deriving DecidableEq, Repr

/-- The immutable target-query snapshot the legalizer holds: the
per-type coarse action (the `ValueTypeActions` bitvector contents), the
`getTypeToTransformTo` map, and the vector element type (spec §6:
`classify`, `transformTo`, `vectorElementType`). -/
structure TargetLoweringInfo where
  valueTypeAction : MVT → TargetAction
  getTypeToTransformTo : MVT → MVT
  vectorElementType : MVT → MVT

/-- `DAGTypeLegalizer::getTypeAction`, embedded from the header: map the
coarse target action to one of the seven fine-grained actions,
disambiguating `Expand` by the shape of the type. -/
def getTypeAction (TLI : TargetLoweringInfo) (VT : MVT) : LegalizeAction :=
  match TLI.valueTypeAction VT with
  | .Legal => .Legal
  | .Promote => .PromoteInteger
  | .Expand =>
    if !VT.isVector then
      if VT.isInteger then
        .ExpandInteger
      else if VT.sizeInBits = (TLI.getTypeToTransformTo VT).sizeInBits then
        .PromoteFloat
      else
        .ExpandFloat
    else if VT.vectorNumElements = 1 then
      .Scalarize
    else
      .Split

/-- `DAGTypeLegalizer::isTypeLegal`, embedded from the header: a type is
legal exactly when the target query reports `Legal`. -/
def isTypeLegal (TLI : TargetLoweringInfo) (VT : MVT) : Bool :=
  decide (TLI.valueTypeAction VT = .Legal)

/-- Capacity of the two-bit-per-type `ValueTypeActionImpl` bitvector:
the constructor asserts `MVT::LAST_VALUETYPE <= 32`. -/
def valueTypeActionCapacity : Nat := 32

/-- `DAGTypeLegalizer::DAGTypeLegalizer`, embedded from the header: the
constructor takes the target snapshot and asserts
`MVT::LAST_VALUETYPE <= 32`; `none` models the assertion firing. -/
def DAGTypeLegalizerCtor (lastValueType : Nat) (TLI : TargetLoweringInfo) :
    Option TargetLoweringInfo :=
  if lastValueType ≤ valueTypeActionCapacity then some TLI else none

/-- C1: for every value type, `getTypeAction` returns exactly one of
the seven actions, determined as follows: coarse `Legal` gives `Legal`;
coarse `Promote` gives `PromoteInteger`; coarse `Expand` gives
`ExpandInteger` for a non-vector integer, `PromoteFloat` for a
non-vector float whose transform-to type has the same bit width,
`ExpandFloat` for a non-vector float whose transform-to type has a
different width, `Scalarize` for a one-element vector, and `Split` for
a vector with more than one element. -/
theorem getTypeAction_characterization (TLI : TargetLoweringInfo) (VT : MVT) :
    (TLI.valueTypeAction VT = .Legal → getTypeAction TLI VT = .Legal) ∧
    (TLI.valueTypeAction VT = .Promote → getTypeAction TLI VT = .PromoteInteger) ∧
    (TLI.valueTypeAction VT = .Expand → VT.isVector = false → VT.isInteger = true →
      getTypeAction TLI VT = .ExpandInteger) ∧
    (TLI.valueTypeAction VT = .Expand → VT.isVector = false → VT.isInteger = false →
      VT.sizeInBits = (TLI.getTypeToTransformTo VT).sizeInBits →
      getTypeAction TLI VT = .PromoteFloat) ∧
    (TLI.valueTypeAction VT = .Expand → VT.isVector = false → VT.isInteger = false →
      VT.sizeInBits ≠ (TLI.getTypeToTransformTo VT).sizeInBits →
      getTypeAction TLI VT = .ExpandFloat) ∧
    (TLI.valueTypeAction VT = .Expand → VT.isVector = true → VT.vectorNumElements = 1 →
      getTypeAction TLI VT = .Scalarize) ∧
    (TLI.valueTypeAction VT = .Expand → VT.isVector = true → 1 < VT.vectorNumElements →
      getTypeAction TLI VT = .Split) := by
  refine ⟨?_, ?_, ?_, ?_, ?_, ?_, ?_⟩ <;>
    intro hq <;> simp [getTypeAction, hq]
  · intro hv hi
    simp [hv, hi]
  · intro hv hi hs
    simp [hv, hi, hs]
  · intro hv hi hs
    simp [hv, hi, hs]
  · intro hv hn
    simp [hv, hn]
  · intro hv hn
    simp [hv]
    omega

/-- Concrete target snapshot used by witnesses: everything is reported
`Expand`, and the transform-to type is the type itself. -/
def tliExpandAll : TargetLoweringInfo :=
  { valueTypeAction := fun _ => .Expand
    getTypeToTransformTo := fun vt => vt
    vectorElementType := fun vt => vt }

/-- A 64-bit non-vector floating-point type. -/
def vtF64 : MVT := { isVector := false, isInteger := false, sizeInBits := 64, vectorNumElements := 0 }

theorem getTypeAction_characterization_witness :
    getTypeAction tliExpandAll vtF64 = .PromoteFloat :=
  (getTypeAction_characterization tliExpandAll vtF64).2.2.2.1 rfl rfl rfl rfl

/-- C7: exceeding the capacity of the two-bit-per-type action bitvector
is fatal: the constructor aborts (assertion `MVT::LAST_VALUETYPE <= 32`)
whenever the simple-value-type count exceeds the capacity, and succeeds
otherwise. -/
theorem ctor_asserts_capacity (lastValueType : Nat) (TLI : TargetLoweringInfo) :
    (valueTypeActionCapacity < lastValueType →
      DAGTypeLegalizerCtor lastValueType TLI = none) ∧
    (lastValueType ≤ valueTypeActionCapacity →
      DAGTypeLegalizerCtor lastValueType TLI = some TLI) := by
  constructor
  · intro h
    simp [DAGTypeLegalizerCtor]
    omega
  · intro h
    simp [DAGTypeLegalizerCtor, h]

theorem ctor_asserts_capacity_witness :
    DAGTypeLegalizerCtor 33 tliExpandAll = none :=
  (ctor_asserts_capacity 33 tliExpandAll).1 (by decide)

/-- An `SDOperand`: a reference to one result slot of a node.  Nodes
are modelled by natural-number handles; `Val = none` is the null node
pointer of a default-constructed `SDOperand`. -/
structure SDOperand where
  Val : Option Nat
  ResNo : Nat
deriving DecidableEq, Repr

/-- The default-constructed (null) `SDOperand` that `DenseMap`
`operator[]` inserts for a missing key. -/
def nullSDOperand : SDOperand := { Val := none, ResNo := 0 }

/-- A `DenseMap` keyed by `SDOperand`, as an association list. -/
abbrev EntryMap (α : Type) := List (SDOperand × α)

/-- Lookup in an `EntryMap` (`DenseMap::find`). -/
def findEntry {α : Type} : EntryMap α → SDOperand → Option α
  | [], _ => none
  | e :: rest, k => if k = e.1 then some e.2 else findEntry rest k

/-- Remove every binding of a key (`DenseMap::erase`). -/
def eraseEntry {α : Type} : EntryMap α → SDOperand → EntryMap α
  | [], _ => []
  | e :: rest, k => if e.1 = k then eraseEntry rest k else e :: eraseEntry rest k

/-- Store a binding, replacing any previous one (`DenseMap` assignment
through `operator[]`). -/
def setEntry {α : Type} (m : EntryMap α) (k : SDOperand) (v : α) : EntryMap α :=
  (k, v) :: eraseEntry m k

theorem findEntry_eraseEntry {α : Type} (m : EntryMap α) (k x : SDOperand) :
    findEntry (eraseEntry m k) x = if x = k then none else findEntry m x := by
  induction m with
  | nil => simp [eraseEntry, findEntry]
  | cons e rest ih =>
    simp only [eraseEntry]
    by_cases hek : e.1 = k
    · rw [if_pos hek, ih]
      by_cases hxk : x = k
      · simp [hxk]
      · have hxe : ¬x = e.1 := by rw [hek]; exact hxk
        simp [findEntry, hxk, hxe]
    · rw [if_neg hek]
      by_cases hxe : x = e.1
      · have hxk : ¬x = k := by rw [hxe]; exact hek
        simp [findEntry, hxe, hxk, hek]
      · simp [findEntry, hxe, ih]

theorem findEntry_setEntry {α : Type} (m : EntryMap α) (k x : SDOperand) (v : α) :
    findEntry (setEntry m k v) x = if x = k then some v else findEntry m x := by
  by_cases hxk : x = k <;> simp [setEntry, findEntry, hxk, findEntry_eraseEntry]

/-- The mutable bookkeeping of the legalizer: the five conversion
tables (six maps: expanded/split strategies store a pair) and the
replacement table, exactly the fields declared in the header. -/
structure LegalizerState where
  PromotedIntegers : EntryMap SDOperand
  ExpandedIntegers : EntryMap (SDOperand × SDOperand)
  PromotedFloats : EntryMap SDOperand
  ExpandedFloats : EntryMap (SDOperand × SDOperand)
  ScalarizedVectors : EntryMap SDOperand
  SplitVectors : EntryMap (SDOperand × SDOperand)
  ReplacedNodes : EntryMap SDOperand
deriving Repr

/-- The state of a freshly constructed legalizer: every table empty. -/
def initState : LegalizerState :=
  { PromotedIntegers := [], ExpandedIntegers := [], PromotedFloats := []
    ExpandedFloats := [], ScalarizedVectors := [], SplitVectors := []
    ReplacedNodes := [] }

/-- Fuel-indexed chain following through the replacement table. -/
def RemapNodeFuel (repl : EntryMap SDOperand) : Nat → SDOperand → SDOperand
  | 0, N => N
  | fuel + 1, N =>
    match findEntry repl N with
    | none => N
    | some N2 => RemapNodeFuel repl fuel N2

/-- Modelled from the spec: `RemapNode` "follows the replacement table
transitively (a replaced node may itself have been replaced) until
reaching a value with no outstanding replacement entry"; its body is in
`LegalizeTypes.cpp`, which is not part of the repository.  The fuel
`repl.length` covers any acyclic chain. -/
def RemapNode (repl : EntryMap SDOperand) (N : SDOperand) : SDOperand :=
  RemapNodeFuel repl repl.length N

theorem remapNodeFuel_of_canonical (repl : EntryMap SDOperand) (N : SDOperand)
    (h : findEntry repl N = none) : ∀ fuel, RemapNodeFuel repl fuel N = N := by
  intro fuel
  cases fuel with
  | zero => rfl
  | succ f => simp [RemapNodeFuel, h]

/-- C6: `RemapNode` is idempotent: a reference with no outstanding
replacement entry is returned unchanged, and remapping the result of a
completed remap (one that reached a canonical reference) returns that
same reference. -/
theorem remapNode_idempotent (repl : EntryMap SDOperand) (N : SDOperand) :
    (findEntry repl N = none → RemapNode repl N = N) ∧
    (findEntry repl (RemapNode repl N) = none →
      RemapNode repl (RemapNode repl N) = RemapNode repl N) := by
  constructor
  · intro h
    exact remapNodeFuel_of_canonical repl N h _
  · intro h
    exact remapNodeFuel_of_canonical repl (RemapNode repl N) h _

/-- Replacement table used by witnesses: node 1 was replaced by node 2,
which was itself replaced by node 3. -/
def replW : EntryMap SDOperand :=
  [({ Val := some 1, ResNo := 0 }, { Val := some 2, ResNo := 0 }),
   ({ Val := some 2, ResNo := 0 }, { Val := some 3, ResNo := 0 })]

theorem remapNode_idempotent_witness :
    RemapNode replW (RemapNode replW { Val := some 1, ResNo := 0 }) =
      RemapNode replW { Val := some 1, ResNo := 0 } :=
  (remapNode_idempotent replW { Val := some 1, ResNo := 0 }).2 (by decide)

/-- `DAGTypeLegalizer::GetPromotedInteger`, embedded from the header:
`operator[]` materialises the entry (inserting a null `SDOperand` when
the key is absent), `RemapNode` canonicalises it in place (the table
keeps the remapped value), and the assertion `PromotedOp.Val` fires —
modelled as a `none` result — when the resolved entry is null. -/
def GetPromotedInteger (st : LegalizerState) (Op : SDOperand) :
    Option SDOperand × LegalizerState :=
  let stored := (findEntry st.PromotedIntegers Op).getD nullSDOperand
  let remapped := RemapNode st.ReplacedNodes stored
  let st2 := { st with PromotedIntegers := setEntry st.PromotedIntegers Op remapped }
  (if remapped.Val.isSome then some remapped else none, st2)

/-- `DAGTypeLegalizer::GetPromotedFloat`, embedded from the header;
same shape as `GetPromotedInteger` over the `PromotedFloats` table. -/
def GetPromotedFloat (st : LegalizerState) (Op : SDOperand) :
    Option SDOperand × LegalizerState :=
  let stored := (findEntry st.PromotedFloats Op).getD nullSDOperand
  let remapped := RemapNode st.ReplacedNodes stored
  let st2 := { st with PromotedFloats := setEntry st.PromotedFloats Op remapped }
  (if remapped.Val.isSome then some remapped else none, st2)

/-- `DAGTypeLegalizer::GetScalarizedVector`, embedded from the header;
same shape as `GetPromotedInteger` over the `ScalarizedVectors`
table. -/
def GetScalarizedVector (st : LegalizerState) (Op : SDOperand) :
    Option SDOperand × LegalizerState :=
  let stored := (findEntry st.ScalarizedVectors Op).getD nullSDOperand
  let remapped := RemapNode st.ReplacedNodes stored
  let st2 := { st with ScalarizedVectors := setEntry st.ScalarizedVectors Op remapped }
  (if remapped.Val.isSome then some remapped else none, st2)

/-- Modelled from the spec: `GetExpandedInteger`, the Lo/Hi getter of
the `ExpandedIntegers` table (its body is in `LegalizeTypes.cpp`, not
part of the repository).  Per spec §4.3 it follows the same contract as
the single-value getters: `operator[]` materialises the pair entry
(null components when the key is absent), both components are resolved
through `RemapNode`, and the assertion on a null component fires —
modelled as a `none` result — when no entry was recorded. -/
def GetExpandedInteger (st : LegalizerState) (Op : SDOperand) :
    Option (SDOperand × SDOperand) × LegalizerState :=
  let stored := (findEntry st.ExpandedIntegers Op).getD (nullSDOperand, nullSDOperand)
  let remapped := (RemapNode st.ReplacedNodes stored.1, RemapNode st.ReplacedNodes stored.2)
  let st2 := { st with ExpandedIntegers := setEntry st.ExpandedIntegers Op remapped }
  (if remapped.1.Val.isSome then some remapped else none, st2)

/-- Modelled from the spec: `GetExpandedFloat`, the Lo/Hi getter of the
`ExpandedFloats` table; same contract as `GetExpandedInteger`. -/
def GetExpandedFloat (st : LegalizerState) (Op : SDOperand) :
    Option (SDOperand × SDOperand) × LegalizerState :=
  let stored := (findEntry st.ExpandedFloats Op).getD (nullSDOperand, nullSDOperand)
  let remapped := (RemapNode st.ReplacedNodes stored.1, RemapNode st.ReplacedNodes stored.2)
  let st2 := { st with ExpandedFloats := setEntry st.ExpandedFloats Op remapped }
  (if remapped.1.Val.isSome then some remapped else none, st2)

/-- Modelled from the spec: `GetSplitVector`, the Lo/Hi getter of the
`SplitVectors` table; same contract as `GetExpandedInteger`. -/
def GetSplitVector (st : LegalizerState) (Op : SDOperand) :
    Option (SDOperand × SDOperand) × LegalizerState :=
  let stored := (findEntry st.SplitVectors Op).getD (nullSDOperand, nullSDOperand)
  let remapped := (RemapNode st.ReplacedNodes stored.1, RemapNode st.ReplacedNodes stored.2)
  let st2 := { st with SplitVectors := setEntry st.SplitVectors Op remapped }
  (if remapped.1.Val.isSome then some remapped else none, st2)

/-- C3: every `Get*` accessor of the Conversion Map Store — the three
single-value getters `GetPromotedInteger`, `GetPromotedFloat`,
`GetScalarizedVector` and the three Lo/Hi getters `GetExpandedInteger`,
`GetExpandedFloat`, `GetSplitVector` — resolves the stored substitute
through `RemapNode` before returning it (a successful result is exactly
the remapped stored entry, hence — when the remap reached a canonical
reference — has no outstanding replacement entry), and a lookup for a
slot with no recorded entry fails fatally (the assert on the null `Val`
fires) instead of returning a value. -/
theorem getters_resolve_and_assert (st : LegalizerState) (Op : SDOperand)
    (hnull : findEntry st.ReplacedNodes nullSDOperand = none) :
    ((∀ r, (GetPromotedInteger st Op).1 = some r →
        r = RemapNode st.ReplacedNodes
              ((findEntry st.PromotedIntegers Op).getD nullSDOperand) ∧
        (findEntry st.ReplacedNodes
            (RemapNode st.ReplacedNodes
              ((findEntry st.PromotedIntegers Op).getD nullSDOperand)) = none →
          findEntry st.ReplacedNodes r = none)) ∧
      (findEntry st.PromotedIntegers Op = none →
        (GetPromotedInteger st Op).1 = none)) ∧
    ((∀ r, (GetPromotedFloat st Op).1 = some r →
        r = RemapNode st.ReplacedNodes
              ((findEntry st.PromotedFloats Op).getD nullSDOperand) ∧
        (findEntry st.ReplacedNodes
            (RemapNode st.ReplacedNodes
              ((findEntry st.PromotedFloats Op).getD nullSDOperand)) = none →
          findEntry st.ReplacedNodes r = none)) ∧
      (findEntry st.PromotedFloats Op = none →
        (GetPromotedFloat st Op).1 = none)) ∧
    ((∀ r, (GetScalarizedVector st Op).1 = some r →
        r = RemapNode st.ReplacedNodes
              ((findEntry st.ScalarizedVectors Op).getD nullSDOperand) ∧
        (findEntry st.ReplacedNodes
            (RemapNode st.ReplacedNodes
              ((findEntry st.ScalarizedVectors Op).getD nullSDOperand)) = none →
          findEntry st.ReplacedNodes r = none)) ∧
      (findEntry st.ScalarizedVectors Op = none →
        (GetScalarizedVector st Op).1 = none)) ∧
    ((∀ r, (GetExpandedInteger st Op).1 = some r →
        r = (RemapNode st.ReplacedNodes
              ((findEntry st.ExpandedIntegers Op).getD (nullSDOperand, nullSDOperand)).1,
             RemapNode st.ReplacedNodes
              ((findEntry st.ExpandedIntegers Op).getD (nullSDOperand, nullSDOperand)).2) ∧
        (findEntry st.ReplacedNodes
            (RemapNode st.ReplacedNodes
              ((findEntry st.ExpandedIntegers Op).getD (nullSDOperand, nullSDOperand)).1) = none →
          findEntry st.ReplacedNodes r.1 = none) ∧
        (findEntry st.ReplacedNodes
            (RemapNode st.ReplacedNodes
              ((findEntry st.ExpandedIntegers Op).getD (nullSDOperand, nullSDOperand)).2) = none →
          findEntry st.ReplacedNodes r.2 = none)) ∧
      (findEntry st.ExpandedIntegers Op = none →
        (GetExpandedInteger st Op).1 = none)) ∧
    ((∀ r, (GetExpandedFloat st Op).1 = some r →
        r = (RemapNode st.ReplacedNodes
              ((findEntry st.ExpandedFloats Op).getD (nullSDOperand, nullSDOperand)).1,
             RemapNode st.ReplacedNodes
              ((findEntry st.ExpandedFloats Op).getD (nullSDOperand, nullSDOperand)).2) ∧
        (findEntry st.ReplacedNodes
            (RemapNode st.ReplacedNodes
              ((findEntry st.ExpandedFloats Op).getD (nullSDOperand, nullSDOperand)).1) = none →
          findEntry st.ReplacedNodes r.1 = none) ∧
        (findEntry st.ReplacedNodes
            (RemapNode st.ReplacedNodes
              ((findEntry st.ExpandedFloats Op).getD (nullSDOperand, nullSDOperand)).2) = none →
          findEntry st.ReplacedNodes r.2 = none)) ∧
      (findEntry st.ExpandedFloats Op = none →
        (GetExpandedFloat st Op).1 = none)) ∧
    ((∀ r, (GetSplitVector st Op).1 = some r →
        r = (RemapNode st.ReplacedNodes
              ((findEntry st.SplitVectors Op).getD (nullSDOperand, nullSDOperand)).1,
             RemapNode st.ReplacedNodes
              ((findEntry st.SplitVectors Op).getD (nullSDOperand, nullSDOperand)).2) ∧
        (findEntry st.ReplacedNodes
            (RemapNode st.ReplacedNodes
              ((findEntry st.SplitVectors Op).getD (nullSDOperand, nullSDOperand)).1) = none →
          findEntry st.ReplacedNodes r.1 = none) ∧
        (findEntry st.ReplacedNodes
            (RemapNode st.ReplacedNodes
              ((findEntry st.SplitVectors Op).getD (nullSDOperand, nullSDOperand)).2) = none →
          findEntry st.ReplacedNodes r.2 = none)) ∧
      (findEntry st.SplitVectors Op = none →
        (GetSplitVector st Op).1 = none)) := by
  have hnil : RemapNode st.ReplacedNodes { Val := none, ResNo := 0 } =
      ({ Val := none, ResNo := 0 } : SDOperand) :=
    remapNodeFuel_of_canonical st.ReplacedNodes nullSDOperand hnull _
  refine ⟨⟨?_, ?_⟩, ⟨?_, ?_⟩, ⟨?_, ?_⟩, ⟨?_, ?_⟩, ⟨?_, ?_⟩, ⟨?_, ?_⟩⟩
  · intro r hr
    by_cases hv : (RemapNode st.ReplacedNodes
        ((findEntry st.PromotedIntegers Op).getD nullSDOperand)).Val.isSome
    · simp [GetPromotedInteger, hv] at hr
      subst hr
      exact ⟨rfl, fun h => h⟩
    · simp [GetPromotedInteger, hv] at hr
  · intro habs
    simp [GetPromotedInteger, habs, hnil, nullSDOperand]
  · intro r hr
    by_cases hv : (RemapNode st.ReplacedNodes
        ((findEntry st.PromotedFloats Op).getD nullSDOperand)).Val.isSome
    · simp [GetPromotedFloat, hv] at hr
      subst hr
      exact ⟨rfl, fun h => h⟩
    · simp [GetPromotedFloat, hv] at hr
  · intro habs
    simp [GetPromotedFloat, habs, hnil, nullSDOperand]
  · intro r hr
    by_cases hv : (RemapNode st.ReplacedNodes
        ((findEntry st.ScalarizedVectors Op).getD nullSDOperand)).Val.isSome
    · simp [GetScalarizedVector, hv] at hr
      subst hr
      exact ⟨rfl, fun h => h⟩
    · simp [GetScalarizedVector, hv] at hr
  · intro habs
    simp [GetScalarizedVector, habs, hnil, nullSDOperand]
  · intro r hr
    by_cases hv : (RemapNode st.ReplacedNodes
        ((findEntry st.ExpandedIntegers Op).getD (nullSDOperand, nullSDOperand)).1).Val.isSome
    · simp [GetExpandedInteger, hv] at hr
      subst hr
      exact ⟨rfl, fun h => h, fun h => h⟩
    · simp [GetExpandedInteger, hv] at hr
  · intro habs
    simp [GetExpandedInteger, habs, hnil, nullSDOperand]
  · intro r hr
    by_cases hv : (RemapNode st.ReplacedNodes
        ((findEntry st.ExpandedFloats Op).getD (nullSDOperand, nullSDOperand)).1).Val.isSome
    · simp [GetExpandedFloat, hv] at hr
      subst hr
      exact ⟨rfl, fun h => h, fun h => h⟩
    · simp [GetExpandedFloat, hv] at hr
  · intro habs
    simp [GetExpandedFloat, habs, hnil, nullSDOperand]
  · intro r hr
    by_cases hv : (RemapNode st.ReplacedNodes
        ((findEntry st.SplitVectors Op).getD (nullSDOperand, nullSDOperand)).1).Val.isSome
    · simp [GetSplitVector, hv] at hr
      subst hr
      exact ⟨rfl, fun h => h, fun h => h⟩
    · simp [GetSplitVector, hv] at hr
  · intro habs
    simp [GetSplitVector, habs, hnil, nullSDOperand]

/-- State used by witnesses: node 10's slot 0 was promoted to node 1
(whose canonical form, per `replW`, is node 3). -/
def stW : LegalizerState :=
  { initState with
    PromotedIntegers := [({ Val := some 10, ResNo := 0 }, { Val := some 1, ResNo := 0 })]
    ReplacedNodes := replW }

theorem getters_resolve_and_assert_witness :
    (GetPromotedFloat stW { Val := some 10, ResNo := 0 }).1 = none ∧
    (GetExpandedInteger stW { Val := some 10, ResNo := 0 }).1 = none :=
  ⟨((getters_resolve_and_assert stW { Val := some 10, ResNo := 0 } (by decide)).2.1).2
     (by decide),
   ((getters_resolve_and_assert stW { Val := some 10, ResNo := 0 } (by decide)).2.2.2.1).2
     (by decide)⟩

/-- C10: the failure path of the `Get*` accessors is not
state-preserving: a lookup for a never-converted slot first inserts a
default (null) entry for the key through `DenseMap::operator[]` and
only then fails the assertion, so the conversion table is mutated even
though no value is returned. -/
theorem getters_failure_mutates (st : LegalizerState) (Op : SDOperand)
    (hnull : findEntry st.ReplacedNodes nullSDOperand = none) :
    (findEntry st.PromotedIntegers Op = none →
      (GetPromotedInteger st Op).1 = none ∧
      findEntry (GetPromotedInteger st Op).2.PromotedIntegers Op = some nullSDOperand) ∧
    (findEntry st.PromotedFloats Op = none →
      (GetPromotedFloat st Op).1 = none ∧
      findEntry (GetPromotedFloat st Op).2.PromotedFloats Op = some nullSDOperand) ∧
    (findEntry st.ScalarizedVectors Op = none →
      (GetScalarizedVector st Op).1 = none ∧
      findEntry (GetScalarizedVector st Op).2.ScalarizedVectors Op = some nullSDOperand) := by
  have hnil : RemapNode st.ReplacedNodes { Val := none, ResNo := 0 } =
      ({ Val := none, ResNo := 0 } : SDOperand) :=
    remapNodeFuel_of_canonical st.ReplacedNodes nullSDOperand hnull _
  refine ⟨?_, ?_, ?_⟩ <;> intro habs
  · constructor
    · simp [GetPromotedInteger, habs, hnil, nullSDOperand]
    · simp [GetPromotedInteger, habs, hnil, findEntry_setEntry, nullSDOperand]
  · constructor
    · simp [GetPromotedFloat, habs, hnil, nullSDOperand]
    · simp [GetPromotedFloat, habs, hnil, findEntry_setEntry, nullSDOperand]
  · constructor
    · simp [GetScalarizedVector, habs, hnil, nullSDOperand]
    · simp [GetScalarizedVector, habs, hnil, findEntry_setEntry, nullSDOperand]

theorem getters_failure_mutates_witness :
    (GetScalarizedVector stW { Val := some 10, ResNo := 0 }).1 = none ∧
    findEntry (GetScalarizedVector stW { Val := some 10, ResNo := 0 }).2.ScalarizedVectors
      { Val := some 10, ResNo := 0 } = some nullSDOperand :=
  (getters_failure_mutates stW { Val := some 10, ResNo := 0 } (by decide)).2.2 (by decide)

/-- Modelled from the spec: `ExpungeNode` "removes all stale entries
for a node that is about to be superseded, preventing dangling chains";
its body is in `LegalizeTypes.cpp`, which is not part of the
repository.  It erases the node's entries from the six conversion
tables. -/
def ExpungeNode (st : LegalizerState) (N : SDOperand) : LegalizerState :=
  { st with
    PromotedIntegers := eraseEntry st.PromotedIntegers N
    ExpandedIntegers := eraseEntry st.ExpandedIntegers N
    PromotedFloats := eraseEntry st.PromotedFloats N
    ExpandedFloats := eraseEntry st.ExpandedFloats N
    ScalarizedVectors := eraseEntry st.ScalarizedVectors N
    SplitVectors := eraseEntry st.SplitVectors N }

/-- `DAGTypeLegalizer::NoteReplacement`, embedded from the header:
expunge `From`, expunge `To`, then record `ReplacedNodes[From] = To`. -/
def NoteReplacement (st : LegalizerState) (Frm To : SDOperand) : LegalizerState :=
  let st1 := ExpungeNode st Frm
  let st2 := ExpungeNode st1 To
  { st2 with ReplacedNodes := setEntry st2.ReplacedNodes Frm To }

/-- C9: `NoteReplacement` expunges the conversion-table entries of both
the replaced value and the replacement value — not only those of the
replaced value — before recording the substitution in the
`ReplacedNodes` table. -/
theorem noteReplacement_expunges_both (st : LegalizerState) (Frm To : SDOperand) :
    findEntry (NoteReplacement st Frm To).PromotedIntegers Frm = none ∧
    findEntry (NoteReplacement st Frm To).PromotedIntegers To = none ∧
    findEntry (NoteReplacement st Frm To).ExpandedIntegers Frm = none ∧
    findEntry (NoteReplacement st Frm To).ExpandedIntegers To = none ∧
    findEntry (NoteReplacement st Frm To).PromotedFloats Frm = none ∧
    findEntry (NoteReplacement st Frm To).PromotedFloats To = none ∧
    findEntry (NoteReplacement st Frm To).ExpandedFloats Frm = none ∧
    findEntry (NoteReplacement st Frm To).ExpandedFloats To = none ∧
    findEntry (NoteReplacement st Frm To).ScalarizedVectors Frm = none ∧
    findEntry (NoteReplacement st Frm To).ScalarizedVectors To = none ∧
    findEntry (NoteReplacement st Frm To).SplitVectors Frm = none ∧
    findEntry (NoteReplacement st Frm To).SplitVectors To = none ∧
    findEntry (NoteReplacement st Frm To).ReplacedNodes Frm = some To := by
  by_cases hft : Frm = To <;>
    simp [NoteReplacement, ExpungeNode, findEntry_eraseEntry, findEntry_setEntry, hft]

/-- `SelectionDAG::getZeroExtendInReg`, modelled from the spec's
account of promotion ("zero/sign-extended as needed by the consumer"):
on the bit-pattern level it clears every bit of the wide value at or
above the original type's bit width.  `SelectionDAG` is not part of the
repository. -/
def getZeroExtendInReg (wide : Nat) (oldBits : Nat) : Nat :=
  wide % 2 ^ oldBits

/-- `DAGTypeLegalizer::ZExtPromotedInteger` on the bit-pattern level,
embedded from the header: fetch the recorded promoted value and
zero-extend it in register from the original type's width. -/
def ZExtPromotedIntegerVal (promoted : Nat) (oldBits : Nat) : Nat :=
  getZeroExtendInReg promoted oldBits

/-- C8: for an operand of integer type `T` whose promoted value has
been recorded, `ZExtPromotedInteger` returns the promoted value with
every bit at position `T`'s width and above cleared to zero, and with
the low `T` bits equal to the low `T` bits of the recorded promoted
value. -/
theorem zextPromotedInteger_bits (promoted oldBits : Nat) :
    (∀ i, oldBits ≤ i → (ZExtPromotedIntegerVal promoted oldBits).testBit i = false) ∧
    (∀ i, i < oldBits →
      (ZExtPromotedIntegerVal promoted oldBits).testBit i = promoted.testBit i) := by
  constructor
  · intro i hi
    have : ¬i < oldBits := by omega
    simp [ZExtPromotedIntegerVal, getZeroExtendInReg, Nat.testBit_mod_two_pow, this]
  · intro i hi
    simp [ZExtPromotedIntegerVal, getZeroExtendInReg, Nat.testBit_mod_two_pow, hi]

theorem zextPromotedInteger_bits_witness :
    (ZExtPromotedIntegerVal 0xABCD 8).testBit 9 = false ∧
    (ZExtPromotedIntegerVal 0xABCD 8).testBit 3 = Nat.testBit 0xABCD 3 :=
  ⟨(zextPromotedInteger_bits 0xABCD 8).1 9 (by decide),
   (zextPromotedInteger_bits 0xABCD 8).2 3 (by decide)⟩

/-- Whether a (node, result-slot) key is present in any of the six
conversion tables. -/
def inAnyTable (st : LegalizerState) (k : SDOperand) : Bool :=
  (findEntry st.PromotedIntegers k).isSome ||
  (findEntry st.ExpandedIntegers k).isSome ||
  (findEntry st.PromotedFloats k).isSome ||
  (findEntry st.ExpandedFloats k).isSome ||
  (findEntry st.ScalarizedVectors k).isSome ||
  (findEntry st.SplitVectors k).isSome

/-- Modelled from the spec: `SetPromotedInteger` (body in
`LegalizeTypes.cpp`, not part of the repository).  "`Set*` mutators are
called exactly once per (node, slot, strategy)"; the classifier assigns
each illegal slot a single strategy, so a slot already present in any
conversion table is a fatal invariant violation (`none`). -/
def SetPromotedInteger (st : LegalizerState) (Op Result : SDOperand) :
    Option LegalizerState :=
  if inAnyTable st Op then none
  else some { st with PromotedIntegers := setEntry st.PromotedIntegers Op Result }

/-- Modelled from the spec: `SetExpandedInteger`, same discipline as
`SetPromotedInteger` over the `ExpandedIntegers` table. -/
def SetExpandedInteger (st : LegalizerState) (Op Lo Hi : SDOperand) :
    Option LegalizerState :=
  if inAnyTable st Op then none
  else some { st with ExpandedIntegers := setEntry st.ExpandedIntegers Op (Lo, Hi) }

/-- Modelled from the spec: `SetPromotedFloat`, same discipline over the
`PromotedFloats` table. -/
def SetPromotedFloat (st : LegalizerState) (Op Result : SDOperand) :
    Option LegalizerState :=
  if inAnyTable st Op then none
  else some { st with PromotedFloats := setEntry st.PromotedFloats Op Result }

/-- Modelled from the spec: `SetExpandedFloat`, same discipline over the
`ExpandedFloats` table. -/
def SetExpandedFloat (st : LegalizerState) (Op Lo Hi : SDOperand) :
    Option LegalizerState :=
  if inAnyTable st Op then none
  else some { st with ExpandedFloats := setEntry st.ExpandedFloats Op (Lo, Hi) }

/-- Modelled from the spec: `SetScalarizedVector`, same discipline over
the `ScalarizedVectors` table. -/
def SetScalarizedVector (st : LegalizerState) (Op Result : SDOperand) :
    Option LegalizerState :=
  if inAnyTable st Op then none
  else some { st with ScalarizedVectors := setEntry st.ScalarizedVectors Op Result }

/-- Modelled from the spec: `SetSplitVector`, same discipline over the
`SplitVectors` table. -/
def SetSplitVector (st : LegalizerState) (Op Lo Hi : SDOperand) :
    Option LegalizerState :=
  if inAnyTable st Op then none
  else some { st with SplitVectors := setEntry st.SplitVectors Op (Lo, Hi) }

/-- The bookkeeping operations a legalization run performs on the
conversion tables: the six `Set*` mutators, `NoteReplacement` (the
driver only replaces real, non-null values), and the `Get*` accessors
(whose assertion aborts the run on failure). -/
inductive EngineOp where
  | setPromotedInteger (Op Result : SDOperand)
  | setExpandedInteger (Op Lo Hi : SDOperand)
  | setPromotedFloat (Op Result : SDOperand)
  | setExpandedFloat (Op Lo Hi : SDOperand)
  | setScalarizedVector (Op Result : SDOperand)
  | setSplitVector (Op Lo Hi : SDOperand)
  | noteReplacement (Frm To : SDOperand)
  | getPromotedInteger (Op : SDOperand)
  | getPromotedFloat (Op : SDOperand)
  | getScalarizedVector (Op : SDOperand)
deriving DecidableEq, Repr

/-- One bookkeeping step of a run; `none` models an aborted run (a
fired assertion). -/
def stepEngine (st : LegalizerState) : EngineOp → Option LegalizerState
  | .setPromotedInteger Op Result => SetPromotedInteger st Op Result
  | .setExpandedInteger Op Lo Hi => SetExpandedInteger st Op Lo Hi
  | .setPromotedFloat Op Result => SetPromotedFloat st Op Result
  | .setExpandedFloat Op Lo Hi => SetExpandedFloat st Op Lo Hi
  | .setScalarizedVector Op Result => SetScalarizedVector st Op Result
  | .setSplitVector Op Lo Hi => SetSplitVector st Op Lo Hi
  | .noteReplacement Frm To =>
    if Frm.Val.isSome && To.Val.isSome then some (NoteReplacement st Frm To) else none
  | .getPromotedInteger Op =>
    if (GetPromotedInteger st Op).1.isSome then some (GetPromotedInteger st Op).2 else none
  | .getPromotedFloat Op =>
    if (GetPromotedFloat st Op).1.isSome then some (GetPromotedFloat st Op).2 else none
  | .getScalarizedVector Op =>
    if (GetScalarizedVector st Op).1.isSome then some (GetScalarizedVector st Op).2 else none

/-- A run of bookkeeping operations from a starting state. -/
def runEngine : LegalizerState → List EngineOp → Option LegalizerState
  | st, [] => some st
  | st, op :: ops =>
    match stepEngine st op with
    | none => none
    | some st2 => runEngine st2 ops

/-- In how many of the six conversion tables a key is present. -/
def tableCount (st : LegalizerState) (k : SDOperand) : Nat :=
  ((findEntry st.PromotedIntegers k).isSome).toNat +
  ((findEntry st.ExpandedIntegers k).isSome).toNat +
  ((findEntry st.PromotedFloats k).isSome).toNat +
  ((findEntry st.ExpandedFloats k).isSome).toNat +
  ((findEntry st.ScalarizedVectors k).isSome).toNat +
  ((findEntry st.SplitVectors k).isSome).toNat

/-- The run invariant: the null reference is never a replacement-table
key, and no key is in two conversion tables. -/
def EngineInv (st : LegalizerState) : Prop :=
  findEntry st.ReplacedNodes nullSDOperand = none ∧ ∀ k, tableCount st k ≤ 1

theorem stepEngine_preserves_inv (st st' : LegalizerState) (op : EngineOp)
    (hinv : EngineInv st) (h : stepEngine st op = some st') : EngineInv st' := by
  obtain ⟨hnull, hexcl⟩ := hinv
  have hnil : RemapNode st.ReplacedNodes { Val := none, ResNo := 0 } =
      ({ Val := none, ResNo := 0 } : SDOperand) :=
    remapNodeFuel_of_canonical st.ReplacedNodes nullSDOperand hnull _
  cases op with
  | setPromotedInteger Op Result =>
    by_cases hg : inAnyTable st Op
    · simp [stepEngine, SetPromotedInteger, hg] at h
    · simp [stepEngine, SetPromotedInteger, hg] at h
      simp [inAnyTable, not_or] at hg
      subst h
      refine ⟨hnull, fun k => ?_⟩
      by_cases hk : k = Op
      · subst hk
        obtain ⟨⟨⟨⟨⟨h1, h2⟩, h3⟩, h4⟩, h5⟩, h6⟩ := hg
        simp [tableCount, findEntry_setEntry, h1, h2, h3, h4, h5, h6]
      · have := hexcl k
        simpa [tableCount, findEntry_setEntry, hk] using this
  | setExpandedInteger Op Lo Hi =>
    by_cases hg : inAnyTable st Op
    · simp [stepEngine, SetExpandedInteger, hg] at h
    · simp [stepEngine, SetExpandedInteger, hg] at h
      simp [inAnyTable, not_or] at hg
      subst h
      refine ⟨hnull, fun k => ?_⟩
      by_cases hk : k = Op
      · subst hk
        obtain ⟨⟨⟨⟨⟨h1, h2⟩, h3⟩, h4⟩, h5⟩, h6⟩ := hg
        simp [tableCount, findEntry_setEntry, h1, h2, h3, h4, h5, h6]
      · have := hexcl k
        simpa [tableCount, findEntry_setEntry, hk] using this
  | setPromotedFloat Op Result =>
    by_cases hg : inAnyTable st Op
    · simp [stepEngine, SetPromotedFloat, hg] at h
    · simp [stepEngine, SetPromotedFloat, hg] at h
      simp [inAnyTable, not_or] at hg
      subst h
      refine ⟨hnull, fun k => ?_⟩
      by_cases hk : k = Op
      · subst hk
        obtain ⟨⟨⟨⟨⟨h1, h2⟩, h3⟩, h4⟩, h5⟩, h6⟩ := hg
        simp [tableCount, findEntry_setEntry, h1, h2, h3, h4, h5, h6]
      · have := hexcl k
        simpa [tableCount, findEntry_setEntry, hk] using this
  | setExpandedFloat Op Lo Hi =>
    by_cases hg : inAnyTable st Op
    · simp [stepEngine, SetExpandedFloat, hg] at h
    · simp [stepEngine, SetExpandedFloat, hg] at h
      simp [inAnyTable, not_or] at hg
      subst h
      refine ⟨hnull, fun k => ?_⟩
      by_cases hk : k = Op
      · subst hk
        obtain ⟨⟨⟨⟨⟨h1, h2⟩, h3⟩, h4⟩, h5⟩, h6⟩ := hg
        simp [tableCount, findEntry_setEntry, h1, h2, h3, h4, h5, h6]
      · have := hexcl k
        simpa [tableCount, findEntry_setEntry, hk] using this
  | setScalarizedVector Op Result =>
    by_cases hg : inAnyTable st Op
    · simp [stepEngine, SetScalarizedVector, hg] at h
    · simp [stepEngine, SetScalarizedVector, hg] at h
      simp [inAnyTable, not_or] at hg
      subst h
      refine ⟨hnull, fun k => ?_⟩
      by_cases hk : k = Op
      · subst hk
        obtain ⟨⟨⟨⟨⟨h1, h2⟩, h3⟩, h4⟩, h5⟩, h6⟩ := hg
        simp [tableCount, findEntry_setEntry, h1, h2, h3, h4, h5, h6]
      · have := hexcl k
        simpa [tableCount, findEntry_setEntry, hk] using this
  | setSplitVector Op Lo Hi =>
    by_cases hg : inAnyTable st Op
    · simp [stepEngine, SetSplitVector, hg] at h
    · simp [stepEngine, SetSplitVector, hg] at h
      simp [inAnyTable, not_or] at hg
      subst h
      refine ⟨hnull, fun k => ?_⟩
      by_cases hk : k = Op
      · subst hk
        obtain ⟨⟨⟨⟨⟨h1, h2⟩, h3⟩, h4⟩, h5⟩, h6⟩ := hg
        simp [tableCount, findEntry_setEntry, h1, h2, h3, h4, h5, h6]
      · have := hexcl k
        simpa [tableCount, findEntry_setEntry, hk] using this
  | noteReplacement Frm To =>
    by_cases hgt : Frm.Val.isSome && To.Val.isSome
    · simp only [stepEngine, hgt, if_pos] at h
      have h2 := h
      injection h2 with h2
      subst h2
      constructor
      · have hne : ¬nullSDOperand = Frm := by
          intro hc
          rw [← hc] at hgt
          simp [nullSDOperand] at hgt
        simp [NoteReplacement, ExpungeNode, findEntry_setEntry, hne]
        exact hnull
      · intro k
        have := hexcl k
        simp only [tableCount, NoteReplacement, ExpungeNode, findEntry_eraseEntry] at this ⊢
        split_ifs <;> simp <;> omega
    · simp [stepEngine, hgt] at h
  | getPromotedInteger Op =>
    by_cases hv : (GetPromotedInteger st Op).1.isSome
    · simp only [stepEngine, hv, if_pos] at h
      injection h with h
      subst h
      have hpres : (findEntry st.PromotedIntegers Op).isSome = true := by
        by_contra habs
        simp at habs
        simp [GetPromotedInteger, habs, hnil, nullSDOperand] at hv
      constructor
      · simpa [GetPromotedInteger] using hnull
      · intro k
        have hthis := hexcl k
        by_cases hk : k = Op
        · subst hk
          cases hfind : findEntry st.PromotedIntegers k with
          | none => rw [hfind] at hpres; simp at hpres
          | some v =>
            simp only [tableCount, hfind, Option.isSome_some, Bool.toNat_true] at hthis
            simp [tableCount, GetPromotedInteger, findEntry_setEntry]
            omega
        · simp [tableCount, GetPromotedInteger, findEntry_setEntry, hk] at hthis ⊢
          omega
    · simp [stepEngine, hv] at h
  | getPromotedFloat Op =>
    by_cases hv : (GetPromotedFloat st Op).1.isSome
    · simp only [stepEngine, hv, if_pos] at h
      injection h with h
      subst h
      have hpres : (findEntry st.PromotedFloats Op).isSome = true := by
        by_contra habs
        simp at habs
        simp [GetPromotedFloat, habs, hnil, nullSDOperand] at hv
      constructor
      · simpa [GetPromotedFloat] using hnull
      · intro k
        have hthis := hexcl k
        by_cases hk : k = Op
        · subst hk
          cases hfind : findEntry st.PromotedFloats k with
          | none => rw [hfind] at hpres; simp at hpres
          | some v =>
            simp only [tableCount, hfind, Option.isSome_some, Bool.toNat_true] at hthis
            simp [tableCount, GetPromotedFloat, findEntry_setEntry]
            omega
        · simp [tableCount, GetPromotedFloat, findEntry_setEntry, hk] at hthis ⊢
          omega
    · simp [stepEngine, hv] at h
  | getScalarizedVector Op =>
    by_cases hv : (GetScalarizedVector st Op).1.isSome
    · simp only [stepEngine, hv, if_pos] at h
      injection h with h
      subst h
      have hpres : (findEntry st.ScalarizedVectors Op).isSome = true := by
        by_contra habs
        simp at habs
        simp [GetScalarizedVector, habs, hnil, nullSDOperand] at hv
      constructor
      · simpa [GetScalarizedVector] using hnull
      · intro k
        have hthis := hexcl k
        by_cases hk : k = Op
        · subst hk
          cases hfind : findEntry st.ScalarizedVectors k with
          | none => rw [hfind] at hpres; simp at hpres
          | some v =>
            simp only [tableCount, hfind, Option.isSome_some, Bool.toNat_true] at hthis
            simp [tableCount, GetScalarizedVector, findEntry_setEntry]
            omega
        · simp [tableCount, GetScalarizedVector, findEntry_setEntry, hk] at hthis ⊢
          omega
    · simp [stepEngine, hv] at h

theorem runEngine_preserves_inv (ops : List EngineOp) :
    ∀ st st', EngineInv st → runEngine st ops = some st' → EngineInv st' := by
  induction ops with
  | nil =>
    intro st st' hinv h
    simp [runEngine] at h
    rwa [← h]
  | cons op rest ih =>
    intro st st' hinv h
    simp only [runEngine] at h
    cases hstep : stepEngine st op with
    | none => rw [hstep] at h; simp at h
    | some st2 =>
      rw [hstep] at h
      exact ih st2 st' (stepEngine_preserves_inv st st2 op hinv hstep) h

/-- C5: table exclusivity.  Every state reachable by a run of
bookkeeping operations from a fresh legalizer (and a run's intermediate
states are exactly the final states of its prefixes) has every
(node, result-slot) key in at most one of the six conversion tables:
no key ever appears in two tables simultaneously. -/
theorem runEngine_table_exclusivity (ops : List EngineOp) (st' : LegalizerState)
    (h : runEngine initState ops = some st') : ∀ k, tableCount st' k ≤ 1 := by
  have hinit : EngineInv initState := by
    constructor
    · rfl
    · intro k
      simp [tableCount, initState, findEntry]
  exact (runEngine_preserves_inv ops initState st' hinit h).2

/-- Operation sequence used by the exclusivity witness: promote node 5
to node 6, read the promoted value back, then replace node 5 by
node 7. -/
def opsW : List EngineOp :=
  [.setPromotedInteger { Val := some 5, ResNo := 0 } { Val := some 6, ResNo := 0 },
   .getPromotedInteger { Val := some 5, ResNo := 0 },
   .noteReplacement { Val := some 5, ResNo := 0 } { Val := some 7, ResNo := 0 }]

theorem runEngine_table_exclusivity_witness :
    tableCount ((runEngine initState opsW).getD initState) { Val := some 5, ResNo := 0 } ≤ 1 :=
  runEngine_table_exclusivity opsW ((runEngine initState opsW).getD initState)
    (by rfl) { Val := some 5, ResNo := 0 }

/-- A graph node: an opcode and the ordered result value types (spec
§3, "Graph Node"). -/
structure SDNode where
  opcode : Nat
  resultTypes : List MVT
deriving DecidableEq, Repr

/-- The input graph, as its list of nodes. -/
abbrev SelDAG := List SDNode

theorem getTypeAction_legal_iff (TLI : TargetLoweringInfo) (VT : MVT) :
    getTypeAction TLI VT = .Legal ↔ TLI.valueTypeAction VT = .Legal := by
  unfold getTypeAction
  cases h : TLI.valueTypeAction VT <;> simp
  split_ifs <;> simp

/-- Modelled from the spec: the per-type recursion of the worklist
driver (`run` and the per-action handlers live in the `.cpp` files,
which are not part of the repository).  An illegal type is rewritten
according to its action — promotion recurses on the transform-to type,
expansion and splitting recurse on the half-sized transform-to type for
the low and high parts, scalarization recurses on the element type —
until every produced type is `Legal`; `none` is an exhausted fuel
budget. -/
def legalizeVT (TLI : TargetLoweringInfo) : Nat → MVT → Option (List MVT)
  | 0, _ => none
  | fuel + 1, VT =>
    match getTypeAction TLI VT with
    | .Legal => some [VT]
    | .PromoteInteger => legalizeVT TLI fuel (TLI.getTypeToTransformTo VT)
    | .ExpandInteger =>
      (legalizeVT TLI fuel (TLI.getTypeToTransformTo VT)).map fun ts => ts ++ ts
    | .PromoteFloat => legalizeVT TLI fuel (TLI.getTypeToTransformTo VT)
    | .ExpandFloat =>
      (legalizeVT TLI fuel (TLI.getTypeToTransformTo VT)).map fun ts => ts ++ ts
    | .Scalarize => legalizeVT TLI fuel (TLI.vectorElementType VT)
    | .Split =>
      (legalizeVT TLI fuel (TLI.getTypeToTransformTo VT)).map fun ts => ts ++ ts

/-- Modelled from the spec: result legalization of one node's result
type list.  A result slot whose action is not `Legal` is dispatched to
the handler for (opcode, action); an unregistered combination is a
fatal error (`none`), never a silent fallback (spec §4.6). -/
def legalizeResultTypes (TLI : TargetLoweringInfo) (handled : Nat → LegalizeAction → Bool)
    (fuel : Nat) (opcode : Nat) : List MVT → Option (List MVT)
  | [] => some []
  | vt :: rest =>
    if getTypeAction TLI vt = .Legal then
      (legalizeResultTypes TLI handled fuel opcode rest).map fun rs => vt :: rs
    else if handled opcode (getTypeAction TLI vt) then
      match legalizeVT TLI fuel vt, legalizeResultTypes TLI handled fuel opcode rest with
      | some ts, some rs => some (ts ++ rs)
      | _, _ => none
    else none

/-- Modelled from the spec: legalize every result slot of one node. -/
def legalizeNode (TLI : TargetLoweringInfo) (handled : Nat → LegalizeAction → Bool)
    (fuel : Nat) (n : SDNode) : Option SDNode :=
  (legalizeResultTypes TLI handled fuel n.opcode n.resultTypes).map fun ts =>
    { n with resultTypes := ts }

/-- Modelled from the spec: a run of the type legalizer
(`DAGTypeLegalizer::run`, whose body is in `LegalizeTypes.cpp`, not
part of the repository) on the whole graph: every node has its result
slots legalized; any fatal handler miss or exhausted budget aborts the
run. -/
def runTypeLegalizer (TLI : TargetLoweringInfo) (handled : Nat → LegalizeAction → Bool)
    (fuel : Nat) : SelDAG → Option SelDAG
  | [] => some []
  | n :: rest =>
    match legalizeNode TLI handled fuel n, runTypeLegalizer TLI handled fuel rest with
    | some n2, some g2 => some (n2 :: g2)
    | _, _ => none

theorem legalizeVT_all_legal (TLI : TargetLoweringInfo) :
    ∀ fuel VT ts, legalizeVT TLI fuel VT = some ts →
      ∀ t ∈ ts, isTypeLegal TLI t = true := by
  intro fuel
  induction fuel with
  | zero =>
    intro VT ts h
    simp [legalizeVT] at h
  | succ f ih =>
    intro VT ts h t ht
    rw [legalizeVT] at h
    cases hact : getTypeAction TLI VT with
    | Legal =>
      rw [hact] at h
      simp at h
      subst h
      simp at ht
      subst ht
      simp [isTypeLegal, (getTypeAction_legal_iff TLI t).mp hact]
    | PromoteInteger =>
      rw [hact] at h
      exact ih _ ts h t ht
    | ExpandInteger =>
      rw [hact] at h
      cases hrec : legalizeVT TLI f (TLI.getTypeToTransformTo VT) with
      | none => rw [hrec] at h; simp at h
      | some ts0 =>
        rw [hrec] at h
        simp at h
        subst h
        rcases List.mem_append.mp ht with hm | hm <;> exact ih _ ts0 hrec t hm
    | PromoteFloat =>
      rw [hact] at h
      exact ih _ ts h t ht
    | ExpandFloat =>
      rw [hact] at h
      cases hrec : legalizeVT TLI f (TLI.getTypeToTransformTo VT) with
      | none => rw [hrec] at h; simp at h
      | some ts0 =>
        rw [hrec] at h
        simp at h
        subst h
        rcases List.mem_append.mp ht with hm | hm <;> exact ih _ ts0 hrec t hm
    | Scalarize =>
      rw [hact] at h
      exact ih _ ts h t ht
    | Split =>
      rw [hact] at h
      cases hrec : legalizeVT TLI f (TLI.getTypeToTransformTo VT) with
      | none => rw [hrec] at h; simp at h
      | some ts0 =>
        rw [hrec] at h
        simp at h
        subst h
        rcases List.mem_append.mp ht with hm | hm <;> exact ih _ ts0 hrec t hm

theorem legalizeResultTypes_all_legal (TLI : TargetLoweringInfo)
    (handled : Nat → LegalizeAction → Bool) (fuel opcode : Nat) :
    ∀ types ts, legalizeResultTypes TLI handled fuel opcode types = some ts →
      ∀ t ∈ ts, isTypeLegal TLI t = true := by
  intro types
  induction types with
  | nil =>
    intro ts h t ht
    simp [legalizeResultTypes] at h
    subst h
    simp at ht
  | cons vt rest ih =>
    intro ts h t ht
    rw [legalizeResultTypes] at h
    by_cases hleg : getTypeAction TLI vt = .Legal
    · rw [if_pos hleg] at h
      cases hrec : legalizeResultTypes TLI handled fuel opcode rest with
      | none => rw [hrec] at h; simp at h
      | some rs =>
        rw [hrec] at h
        simp at h
        subst h
        rcases List.mem_cons.mp ht with hm | hm
        · subst hm
          simp [isTypeLegal, (getTypeAction_legal_iff TLI t).mp hleg]
        · exact ih rs hrec t hm
    · rw [if_neg hleg] at h
      by_cases hh : handled opcode (getTypeAction TLI vt) = true
      · rw [if_pos hh] at h
        cases hvt : legalizeVT TLI fuel vt with
        | none => rw [hvt] at h; simp at h
        | some ts0 =>
          cases hrec : legalizeResultTypes TLI handled fuel opcode rest with
          | none => rw [hvt, hrec] at h; simp at h
          | some rs =>
            rw [hvt, hrec] at h
            simp at h
            subst h
            rcases List.mem_append.mp ht with hm | hm
            · exact legalizeVT_all_legal TLI fuel vt ts0 hvt t hm
            · exact ih rs hrec t hm
      · rw [if_neg hh] at h
        simp at h

/-- C2: legality postcondition.  After a completed run of the type
legalizer on an input graph, every result slot of every node in the
resulting graph has a type the Legality Classifier reports `Legal`
(`isTypeLegal` holds for every result type). -/
theorem run_legality_postcondition (TLI : TargetLoweringInfo)
    (handled : Nat → LegalizeAction → Bool) (fuel : Nat) (g g' : SelDAG)
    (h : runTypeLegalizer TLI handled fuel g = some g') :
    ∀ n ∈ g', ∀ vt ∈ n.resultTypes, isTypeLegal TLI vt = true := by
  induction g generalizing g' with
  | nil =>
    simp [runTypeLegalizer] at h
    subst h
    intro n hn
    simp at hn
  | cons n0 rest ih =>
    rw [runTypeLegalizer] at h
    cases hn0 : legalizeNode TLI handled fuel n0 with
    | none => rw [hn0] at h; simp at h
    | some n2 =>
      cases hrest : runTypeLegalizer TLI handled fuel rest with
      | none => rw [hn0, hrest] at h; simp at h
      | some g2 =>
        rw [hn0, hrest] at h
        simp at h
        subst h
        intro n hn vt hvt
        rcases List.mem_cons.mp hn with hm | hm
        · subst hm
          rw [legalizeNode] at hn0
          cases hres : legalizeResultTypes TLI handled fuel n0.opcode n0.resultTypes with
          | none => rw [hres] at hn0; simp at hn0
          | some ts =>
            rw [hres] at hn0
            simp at hn0
            rw [← hn0] at hvt
            simp at hvt
            exact legalizeResultTypes_all_legal TLI handled fuel n0.opcode
              n0.resultTypes ts hres vt hvt
        · exact ih g2 hrest n hm vt hvt

/-- Target snapshot used by witnesses: types wider than 32 bits are
`Expand`, the transform-to type and the element type halve the bit
width. -/
def tliHalving : TargetLoweringInfo :=
  { valueTypeAction := fun vt => if vt.sizeInBits ≤ 32 then .Legal else .Expand
    getTypeToTransformTo := fun vt =>
      { vt with sizeInBits := vt.sizeInBits / 2 }
    vectorElementType := fun vt =>
      { isVector := false, isInteger := vt.isInteger, sizeInBits := vt.sizeInBits / 2
        vectorNumElements := 0 } }

/-- A 64-bit non-vector integer type. -/
def vtI64 : MVT := { isVector := false, isInteger := true, sizeInBits := 64, vectorNumElements := 0 }

/-- A 32-bit non-vector integer type. -/
def vtI32 : MVT := { isVector := false, isInteger := true, sizeInBits := 32, vectorNumElements := 0 }

theorem run_legality_postcondition_witness :
    isTypeLegal tliHalving vtI32 = true :=
  run_legality_postcondition tliHalving (fun _ _ => true) 2
    [{ opcode := 0, resultTypes := [vtI64] }]
    [{ opcode := 0, resultTypes := [vtI32, vtI32] }]
    (by rfl)
    { opcode := 0, resultTypes := [vtI32, vtI32] } (by simp)
    vtI32 (by simp)

/-- The types a single legalization step recurses on: none for a legal
type, the element type for scalarization, the transform-to type for
every other action. -/
def NextTypes (TLI : TargetLoweringInfo) (VT : MVT) : List MVT :=
  match getTypeAction TLI VT with
  | .Legal => []
  | .Scalarize => [TLI.vectorElementType VT]
  | _ => [TLI.getTypeToTransformTo VT]

/-- The spec's monotonicity invariant (§3): each expansion/splitting/
promotion/scalarization step strictly decreases a measure of the type
(the spec bounds recursion depth by the bit width / element count of
the original type). -/
def MeasureDecreasing (TLI : TargetLoweringInfo) (m : MVT → Nat) : Prop :=
  ∀ VT t, t ∈ NextTypes TLI VT → m t < m VT

theorem legalizeVT_terminates (TLI : TargetLoweringInfo) (m : MVT → Nat)
    (hdec : MeasureDecreasing TLI m) :
    ∀ fuel VT, m VT < fuel → (legalizeVT TLI fuel VT).isSome = true := by
  intro fuel
  induction fuel with
  | zero =>
    intro VT h
    exact absurd h (Nat.not_lt_zero _)
  | succ f ih =>
    intro VT h
    rw [legalizeVT]
    cases hact : getTypeAction TLI VT with
    | Legal => simp
    | PromoteInteger =>
      have hm : m (TLI.getTypeToTransformTo VT) < m VT :=
        hdec VT _ (by simp [NextTypes, hact])
      exact ih (TLI.getTypeToTransformTo VT) (by omega)
    | ExpandInteger =>
      have hm : m (TLI.getTypeToTransformTo VT) < m VT :=
        hdec VT _ (by simp [NextTypes, hact])
      have hrec := ih (TLI.getTypeToTransformTo VT) (by omega)
      show ((legalizeVT TLI f (TLI.getTypeToTransformTo VT)).map fun ts => ts ++ ts).isSome = true
      cases hvt : legalizeVT TLI f (TLI.getTypeToTransformTo VT) with
      | none => rw [hvt] at hrec; simp at hrec
      | some ts => simp
    | PromoteFloat =>
      have hm : m (TLI.getTypeToTransformTo VT) < m VT :=
        hdec VT _ (by simp [NextTypes, hact])
      exact ih (TLI.getTypeToTransformTo VT) (by omega)
    | ExpandFloat =>
      have hm : m (TLI.getTypeToTransformTo VT) < m VT :=
        hdec VT _ (by simp [NextTypes, hact])
      have hrec := ih (TLI.getTypeToTransformTo VT) (by omega)
      show ((legalizeVT TLI f (TLI.getTypeToTransformTo VT)).map fun ts => ts ++ ts).isSome = true
      cases hvt : legalizeVT TLI f (TLI.getTypeToTransformTo VT) with
      | none => rw [hvt] at hrec; simp at hrec
      | some ts => simp
    | Scalarize =>
      have hm : m (TLI.vectorElementType VT) < m VT :=
        hdec VT _ (by simp [NextTypes, hact])
      exact ih (TLI.vectorElementType VT) (by omega)
    | Split =>
      have hm : m (TLI.getTypeToTransformTo VT) < m VT :=
        hdec VT _ (by simp [NextTypes, hact])
      have hrec := ih (TLI.getTypeToTransformTo VT) (by omega)
      show ((legalizeVT TLI f (TLI.getTypeToTransformTo VT)).map fun ts => ts ++ ts).isSome = true
      cases hvt : legalizeVT TLI f (TLI.getTypeToTransformTo VT) with
      | none => rw [hvt] at hrec; simp at hrec
      | some ts => simp

theorem legalizeResultTypes_terminates (TLI : TargetLoweringInfo) (m : MVT → Nat)
    (handled : Nat → LegalizeAction → Bool) (fuel opcode : Nat)
    (hdec : MeasureDecreasing TLI m) :
    ∀ types, (∀ vt ∈ types, m vt < fuel) →
      (∀ vt ∈ types, getTypeAction TLI vt ≠ .Legal →
        handled opcode (getTypeAction TLI vt) = true) →
      (legalizeResultTypes TLI handled fuel opcode types).isSome = true := by
  intro types
  induction types with
  | nil =>
    intro _ _
    simp [legalizeResultTypes]
  | cons vt rest ih =>
    intro hm hcov
    have hrest := ih (fun v hv => hm v (List.mem_cons_of_mem _ hv))
      (fun v hv => hcov v (List.mem_cons_of_mem _ hv))
    rw [legalizeResultTypes]
    by_cases hleg : getTypeAction TLI vt = .Legal
    · rw [if_pos hleg]
      cases hrec : legalizeResultTypes TLI handled fuel opcode rest with
      | none => rw [hrec] at hrest; simp at hrest
      | some rs => simp [hrec]
    · rw [if_neg hleg, if_pos (hcov vt (List.mem_cons_self _ _) hleg)]
      have h1 := legalizeVT_terminates TLI m hdec fuel vt (hm vt (List.mem_cons_self _ _))
      cases hvt : legalizeVT TLI fuel vt with
      | none => rw [hvt] at h1; simp at h1
      | some ts0 =>
        cases hrec : legalizeResultTypes TLI handled fuel opcode rest with
        | none => rw [hrec] at hrest; simp at hrest
        | some rs => simp

theorem le_listSum_of_mem : ∀ (l : List Nat) (a : Nat), a ∈ l → a ≤ l.sum := by
  intro l
  induction l with
  | nil =>
    intro a ha
    simp at ha
  | cons x xs ih =>
    intro a ha
    rcases List.mem_cons.mp ha with h | h
    · subst h
      simp [List.sum_cons]
    · have := ih a h
      simp [List.sum_cons]
      omega

/-- The fuel budget for a run: the sum of the measure over every
result slot of every node, plus one — proportional to the sum of
(bit width / element count) over the graph's values once the measure is
instantiated to the type's size. -/
def graphBound (m : MVT → Nat) (g : SelDAG) : Nat :=
  (g.map fun n => (n.resultTypes.map m).sum).sum + 1

theorem measure_lt_graphBound (m : MVT → Nat) (g : SelDAG) (n : SDNode) (vt : MVT)
    (hn : n ∈ g) (hvt : vt ∈ n.resultTypes) : m vt < graphBound m g := by
  have h1 : m vt ≤ (n.resultTypes.map m).sum :=
    le_listSum_of_mem _ _ (List.mem_map_of_mem m hvt)
  have h2 : (n.resultTypes.map m).sum ≤ (g.map fun n => (n.resultTypes.map m).sum).sum :=
    le_listSum_of_mem _ _ (List.mem_map_of_mem _ hn)
  have : m vt ≤ (g.map fun n => (n.resultTypes.map m).sum).sum := le_trans h1 h2
  simp [graphBound]
  omega

theorem runTypeLegalizer_isSome_of_fuel (TLI : TargetLoweringInfo) (m : MVT → Nat)
    (handled : Nat → LegalizeAction → Bool) (fuel : Nat)
    (hdec : MeasureDecreasing TLI m) :
    ∀ g : SelDAG, (∀ n ∈ g, ∀ vt ∈ n.resultTypes, m vt < fuel) →
      (∀ n ∈ g, ∀ vt ∈ n.resultTypes, getTypeAction TLI vt ≠ .Legal →
        handled n.opcode (getTypeAction TLI vt) = true) →
      (runTypeLegalizer TLI handled fuel g).isSome = true := by
  intro g
  induction g with
  | nil =>
    intro _ _
    simp [runTypeLegalizer]
  | cons n0 rest ih =>
    intro hm hcov
    have h0 : (legalizeResultTypes TLI handled fuel n0.opcode n0.resultTypes).isSome = true :=
      legalizeResultTypes_terminates TLI m handled fuel n0.opcode hdec n0.resultTypes
        (fun vt hvt => hm n0 (List.mem_cons_self _ _) vt hvt)
        (fun vt hvt => hcov n0 (List.mem_cons_self _ _) vt hvt)
    have hrest := ih (fun n hn => hm n (List.mem_cons_of_mem _ hn))
      (fun n hn => hcov n (List.mem_cons_of_mem _ hn))
    rw [runTypeLegalizer]
    cases hres : legalizeResultTypes TLI handled fuel n0.opcode n0.resultTypes with
    | none => rw [hres] at h0; simp at h0
    | some ts =>
      cases hrun : runTypeLegalizer TLI handled fuel rest with
      | none => rw [hrun] at hrest; simp at hrest
      | some g2 => simp [legalizeNode, hres, hrun]

theorem legalizeResultTypes_unhandled (TLI : TargetLoweringInfo)
    (handled : Nat → LegalizeAction → Bool) (fuel opcode : Nat) :
    ∀ types vt, vt ∈ types → getTypeAction TLI vt ≠ .Legal →
      handled opcode (getTypeAction TLI vt) = false →
      legalizeResultTypes TLI handled fuel opcode types = none := by
  intro types
  induction types with
  | nil =>
    intro vt hv
    simp at hv
  | cons x rest ih =>
    intro vt hv hna hnh
    rw [legalizeResultTypes]
    rcases List.mem_cons.mp hv with h | h
    · subst h
      rw [if_neg hna, if_neg (by simp [hnh])]
    · by_cases hleg : getTypeAction TLI x = .Legal
      · rw [if_pos hleg, ih vt h hna hnh]
        rfl
      · by_cases hh : handled opcode (getTypeAction TLI x) = true
        · rw [if_neg hleg, if_pos hh, ih vt h hna hnh]
          cases legalizeVT TLI fuel x <;> rfl
        · rw [if_neg hleg, if_neg hh]

theorem runTypeLegalizer_none_of_node (TLI : TargetLoweringInfo)
    (handled : Nat → LegalizeAction → Bool) (fuel : Nat) :
    ∀ (g : SelDAG) (n : SDNode), n ∈ g → legalizeNode TLI handled fuel n = none →
      runTypeLegalizer TLI handled fuel g = none := by
  intro g
  induction g with
  | nil =>
    intro n hn
    simp at hn
  | cons n0 rest ih =>
    intro n hn hnone
    rw [runTypeLegalizer]
    rcases List.mem_cons.mp hn with h | h
    · subst h
      rw [hnone]
    · rw [ih n h hnone]
      cases legalizeNode TLI handled fuel n0 <;> rfl

/-- C4: termination.  Under the spec's monotonicity invariant
(a measure on types that strictly decreases along legalization steps),
a run on a graph whose (opcode, action) combinations all have handlers
completes — reaches a result — within the fuel bound `graphBound`, the
measure summed over all result slots plus one; and a graph containing
an unhandled (opcode, action) combination makes the run abort
(`none`) instead of looping. -/
theorem run_terminates_with_bound (TLI : TargetLoweringInfo) (m : MVT → Nat)
    (handled : Nat → LegalizeAction → Bool) (g : SelDAG)
    (hdec : MeasureDecreasing TLI m) :
    ((∀ n ∈ g, ∀ vt ∈ n.resultTypes, getTypeAction TLI vt ≠ .Legal →
        handled n.opcode (getTypeAction TLI vt) = true) →
      (runTypeLegalizer TLI handled (graphBound m g) g).isSome = true) ∧
    (∀ n ∈ g, ∀ vt ∈ n.resultTypes, getTypeAction TLI vt ≠ .Legal →
        handled n.opcode (getTypeAction TLI vt) = false →
      runTypeLegalizer TLI handled (graphBound m g) g = none) := by
  constructor
  · intro hcov
    exact runTypeLegalizer_isSome_of_fuel TLI m handled (graphBound m g) hdec g
      (fun n hn vt hvt => measure_lt_graphBound m g n vt hn hvt) hcov
  · intro n hn vt hvt hna hnh
    apply runTypeLegalizer_none_of_node TLI handled (graphBound m g) g n hn
    rw [legalizeNode,
      legalizeResultTypes_unhandled TLI handled (graphBound m g) n.opcode
        n.resultTypes vt hvt hna hnh]
    rfl

/-- The halving target snapshot decreases the bit-width measure on
every legalization step. -/
theorem tliHalving_measure_decreasing :
    MeasureDecreasing tliHalving (fun vt => vt.sizeInBits) := by
  intro VT t ht
  by_cases hs : VT.sizeInBits ≤ 32
  · have hleg : getTypeAction tliHalving VT = .Legal := by
      simp [getTypeAction, tliHalving, hs]
    simp [NextTypes, hleg] at ht
  · cases hact : getTypeAction tliHalving VT
    all_goals simp [NextTypes, hact] at ht
    all_goals (subst ht; simp [tliHalving]; omega)

theorem run_terminates_with_bound_witness :
    (runTypeLegalizer tliHalving (fun _ _ => true)
      (graphBound (fun vt => vt.sizeInBits) [{ opcode := 0, resultTypes := [vtI64] }])
      [{ opcode := 0, resultTypes := [vtI64] }]).isSome = true :=
  (run_terminates_with_bound tliHalving (fun vt => vt.sizeInBits) (fun _ _ => true)
    [{ opcode := 0, resultTypes := [vtI64] }] tliHalving_measure_decreasing).1
    (fun _ _ _ _ _ => rfl)

end LegalizeTypes
